import Mathlib

/-!
Shallow embedding of the two command-line pipelines of this repository:

* `scripts/convert_with_ghostscript.py` — PDF → 8-bit grayscale conversion
  (function `convert_pdf_to_grayscale` and the `__main__` argument handling);
* `scripts/extract_pdf_images.py` — embedded-image extraction
  (functions `extract_images_from_pdf` and `main`).

Pure computations (pixel substitution, base64 encoding, filename
construction, page-geometry arithmetic) are translated directly; the
effectful skeleton (subprocess outcomes, filesystem events, exceptions)
is modelled by an explicit "world" record enumerating the outcomes the
code branches on, with the branch structure copied from the source.
-/

namespace PdfCreateExpress

/-! ## Grayscale page images (numpy arrays of 8-bit pixels) -/

/-- An 8-bit single-channel raster image: pixel intensities 0..255 stored
row-major in `data`. Models a PIL mode-`L` image / 2-d numpy array. -/
structure GrayImage where
  width : Nat
  height : Nat
  data : List Nat
  deriving Repr, DecidableEq

/-- `convert_with_ghostscript.py` lines 262–277: replace every pixel whose
intensity is `>= 240` (`white_threshold`) by `217` (`gray_bg_value`);
`img_array[white_mask] = gray_bg_value` leaves all other pixels and the
array shape unchanged. -/
def substituteBackground (img : GrayImage) : GrayImage :=
  { width := img.width
    height := img.height
    data := img.data.map (fun p => if 240 ≤ p then 217 else p) }

/-! ## Base64 (Python `base64.b64encode` / `b64decode`, standard alphabet) -/

/-- The standard base64 alphabet: sextet value → character. -/
def b64Char (s : Nat) : Char :=
  if s < 26 then Char.ofNat (65 + s)
  else if s < 52 then Char.ofNat (97 + (s - 26))
  else if s < 62 then Char.ofNat (48 + (s - 52))
  else if s = 62 then '+'
  else '/'

/-- Inverse of the base64 alphabet: character → sextet value. -/
def b64Val (c : Char) : Nat :=
  if 65 ≤ c.toNat ∧ c.toNat ≤ 90 then c.toNat - 65
  else if 97 ≤ c.toNat ∧ c.toNat ≤ 122 then c.toNat - 97 + 26
  else if 48 ≤ c.toNat ∧ c.toNat ≤ 57 then c.toNat - 48 + 52
  else if c = '+' then 62
  else 63

/-- Standard base64 encoding of a byte list, with `=` padding, three input
bytes per four output characters. -/
def b64encodeList : List Nat → List Char
  | [] => []
  | [b1] => [b64Char (b1 / 4), b64Char (b1 % 4 * 16), '=', '=']
  | [b1, b2] =>
      [b64Char (b1 / 4), b64Char (b1 % 4 * 16 + b2 / 16), b64Char (b2 % 16 * 4), '=']
  | b1 :: b2 :: b3 :: rest =>
      b64Char (b1 / 4) :: b64Char (b1 % 4 * 16 + b2 / 16) ::
      b64Char (b2 % 16 * 4 + b3 / 64) :: b64Char (b3 % 64) :: b64encodeList rest

/-- Standard base64 decoding (defined on well-formed encodings: groups of
four characters with `=` padding only closing the last group). -/
def b64decodeList : List Char → List Nat
  | c1 :: c2 :: c3 :: c4 :: rest =>
      if c3 = '=' then [b64Val c1 * 4 + b64Val c2 / 16]
      else if c4 = '=' then
        [b64Val c1 * 4 + b64Val c2 / 16, b64Val c2 % 16 * 16 + b64Val c3 / 4]
      else
        (b64Val c1 * 4 + b64Val c2 / 16) :: (b64Val c2 % 16 * 16 + b64Val c3 / 4) ::
        (b64Val c3 % 4 * 64 + b64Val c4) :: b64decodeList rest
  | _ => []

theorem b64Val_b64Char : ∀ s < 64, b64Val (b64Char s) = s := by decide

theorem b64Char_ne_eq : ∀ s < 64, b64Char s ≠ '=' := by decide

/-- Base64 round-trip on byte lists: decoding an encoding recovers the bytes. -/
theorem b64decode_b64encode :
    ∀ l : List Nat, (∀ b ∈ l, b < 256) → b64decodeList (b64encodeList l) = l
  | [], _ => rfl
  | [b1], h => by
      have hb1 : b1 < 256 := h b1 (by simp)
      have e1 := b64Val_b64Char (b1 / 4) (by omega)
      have e2 := b64Val_b64Char (b1 % 4 * 16) (by omega)
      simp [b64encodeList, b64decodeList, e1, e2]
      omega
  | [b1, b2], h => by
      have hb1 : b1 < 256 := h b1 (by simp)
      have hb2 : b2 < 256 := h b2 (by simp)
      have e1 := b64Val_b64Char (b1 / 4) (by omega)
      have e2 := b64Val_b64Char (b1 % 4 * 16 + b2 / 16) (by omega)
      have e3 := b64Val_b64Char (b2 % 16 * 4) (by omega)
      have n3 := b64Char_ne_eq (b2 % 16 * 4) (by omega)
      simp [b64encodeList, b64decodeList, e1, e2, e3, n3]
      omega
  | b1 :: b2 :: b3 :: rest, h => by
      have hb1 : b1 < 256 := h b1 (by simp)
      have hb2 : b2 < 256 := h b2 (by simp)
      have hb3 : b3 < 256 := h b3 (by simp)
      have ih := b64decode_b64encode rest (fun b hb => h b (by simp [hb]))
      have e1 := b64Val_b64Char (b1 / 4) (by omega)
      have e2 := b64Val_b64Char (b1 % 4 * 16 + b2 / 16) (by omega)
      have e3 := b64Val_b64Char (b2 % 16 * 4 + b3 / 64) (by omega)
      have e4 := b64Val_b64Char (b3 % 64) (by omega)
      have n3 := b64Char_ne_eq (b2 % 16 * 4 + b3 / 64) (by omega)
      have n4 := b64Char_ne_eq (b3 % 64) (by omega)
      simp [b64encodeList, b64decodeList, e1, e2, e3, e4, n3, n4, ih]
      omega

/-! ## Decimal rendering of naturals (Python `str` on nonnegative ints,
as interpolated into f-strings when building filenames) -/

/-- Character for a single decimal digit. -/
def digitChar (d : Nat) : Char := Char.ofNat (48 + d)

/-- Fuel-driven helper for `natDigits`; the fuel only bounds the recursion
depth and any fuel above `n` gives the same digits. -/
def natDigitsF : Nat → Nat → List Char
  | 0, n => [digitChar n]
  | fuel + 1, n =>
    if n < 10 then [digitChar n]
    else natDigitsF fuel (n / 10) ++ [digitChar (n % 10)]

/-- Decimal digits of a natural number, most significant first
(the character sequence Python's `str` produces for a nonnegative int). -/
def natDigits (n : Nat) : List Char := natDigitsF (n + 1) n

/-- Python `str(n)` for a natural number. -/
def natRepr (n : Nat) : String := ⟨natDigits n⟩

theorem natDigitsF_congr :
    ∀ (f1 f2 n : Nat), n < f1 → n < f2 → natDigitsF f1 n = natDigitsF f2 n
  | 0, _, n, h1, _ => absurd h1 (by omega)
  | _ + 1, 0, n, _, h2 => absurd h2 (by omega)
  | f1 + 1, f2 + 1, n, h1, h2 => by
    simp only [natDigitsF]
    by_cases h : n < 10
    · simp [h]
    · simp only [if_neg h]
      rw [natDigitsF_congr f1 f2 (n / 10) (by omega) (by omega)]

/-- The usual recursive description of `natDigits`. -/
theorem natDigits_unfold (n : Nat) :
    natDigits n = if n < 10 then [digitChar n]
      else natDigits (n / 10) ++ [digitChar (n % 10)] := by
  show natDigitsF (n + 1) n = _
  simp only [natDigitsF]
  by_cases h : n < 10
  · simp [h]
  · simp only [if_neg h]
    rw [natDigitsF_congr n (n / 10 + 1) (n / 10) (by omega) (by omega)]
    rfl

theorem natDigits_ne_nil (n : Nat) : natDigits n ≠ [] := by
  rw [natDigits_unfold]
  split <;> simp

theorem digitChar_inj : ∀ d1 < 10, ∀ d2 < 10, digitChar d1 = digitChar d2 → d1 = d2 := by
  decide

theorem natDigits_mem (n : Nat) : ∀ c ∈ natDigits n, ∃ d, d < 10 ∧ c = digitChar d := by
  induction n using Nat.strong_induction_on with
  | _ n ih =>
    rw [natDigits_unfold]
    split
    · next h => intro c hc; exact ⟨n, h, by simpa using hc⟩
    · next h =>
      intro c hc
      rcases List.mem_append.mp hc with h1 | h2
      · exact ih (n / 10) (Nat.div_lt_self (by omega) (by omega)) c h1
      · exact ⟨n % 10, by omega, by simpa using h2⟩

theorem natDigits_inj : ∀ n1 n2 : Nat, natDigits n1 = natDigits n2 → n1 = n2 := by
  intro n1
  induction n1 using Nat.strong_induction_on with
  | _ n1 ih =>
    intro n2 heq
    rw [natDigits_unfold n1, natDigits_unfold n2] at heq
    split at heq
    · next h1 =>
      split at heq
      · next h2 => simpa using digitChar_inj n1 h1 n2 h2 (by simpa using heq)
      · next h2 =>
        exfalso
        have hlen := congrArg List.length heq
        simp only [List.length_append, List.length_cons, List.length_nil] at hlen
        exact natDigits_ne_nil (n2 / 10) (List.length_eq_zero.mp (by omega))
    · next h1 =>
      split at heq
      · next h2 =>
        exfalso
        have hlen := congrArg List.length heq
        simp only [List.length_append, List.length_cons, List.length_nil] at hlen
        exact natDigits_ne_nil (n1 / 10) (List.length_eq_zero.mp (by omega))
      · next h2 =>
        have := List.append_inj' heq (by simp)
        have hdiv := ih (n1 / 10) (Nat.div_lt_self (by omega) (by omega)) (n2 / 10) this.1
        have hmod : n1 % 10 = n2 % 10 :=
          digitChar_inj (n1 % 10) (by omega) (n2 % 10) (by omega) (by simpa using this.2)
        omega

theorem natDigits_no_underscore (n : Nat) : '_' ∉ natDigits n := by
  intro hmem
  obtain ⟨d, hd, hc⟩ := natDigits_mem n '_' hmem
  revert hc
  revert hd
  revert d
  decide

theorem natDigits_no_dot (n : Nat) : '.' ∉ natDigits n := by
  intro hmem
  obtain ⟨d, hd, hc⟩ := natDigits_mem n '.' hmem
  revert hc
  revert hd
  revert d
  decide

/-- Cancellation around a separator character that occurs in neither
left-hand part. -/
theorem append_sep_inj {sep : Char} :
    ∀ (xs1 xs2 ys1 ys2 : List Char), sep ∉ xs1 → sep ∉ xs2 →
      xs1 ++ sep :: ys1 = xs2 ++ sep :: ys2 → xs1 = xs2 ∧ ys1 = ys2 := by
  intro xs1
  induction xs1 with
  | nil =>
    intro xs2 ys1 ys2 _ h2 heq
    cases xs2 with
    | nil => simpa using heq
    | cons a l =>
      exfalso
      simp at heq
      exact h2 (by simp [heq.1])
  | cons a l ih =>
    intro xs2 ys1 ys2 h1 h2 heq
    cases xs2 with
    | nil =>
      exfalso
      simp at heq
      exact h1 (by simp [heq.1])
    | cons b m =>
      simp at heq
      obtain ⟨rfl, htail⟩ := heq
      have := ih m ys1 ys2 (fun hm => h1 (by simp [hm])) (fun hm => h2 (by simp [hm])) htail
      exact ⟨by simp [this.1], this.2⟩

/-! ## Embedded-image extraction (`scripts/extract_pdf_images.py`) -/

/-- One embedded raster image reference on a PDF page, together with the
outcomes of the library calls the script performs on it:
`extractOk` — `pdf_document.extract_image(xref)` succeeds and returns a
non-`None` dict (lines 48–51 / the per-image `except` at lines 118–121);
`convertOk` — the PIL decode + JPEG re-encode block (lines 70–94) succeeds;
`jpegBytes` — the re-encoded JPEG bytes (`img_buffer.getvalue()`);
`origBytes` — the original undecoded bytes (`base_image["image"]`). -/
structure EmbeddedImage where
  width : Nat
  height : Nat
  colorspace : String
  extractOk : Bool
  convertOk : Bool
  origBytes : List Nat
  jpegBytes : List Nat
  deriving Repr, DecidableEq

/-- A PDF document as the extraction script sees it: whether `fitz.open`
succeeds, and the embedded images listed per page
(`page.get_images(full=True)` in page order). -/
structure PdfDoc where
  opensOk : Bool
  pages : List (List EmbeddedImage)
  deriving Repr, DecidableEq

/-- The dict appended to `extracted_images` (lines 106–116). -/
structure ImageRecord where
  filename : String
  base64 : List Char
  page : Nat
  width : Nat
  height : Nat
  format : String
  mimeType : String
  colorspace : String
  size : Nat
  deriving Repr, DecidableEq

/-- `image_filename = f"image_p{page_num + 1}_{image_counter}.jpg"` (line 67);
`page` is already 1-based here, `k` is the counter value after increment. -/
def mkFilename (pg k : Nat) : String :=
  "image_p" ++ natRepr pg ++ "_" ++ natRepr k ++ ".jpg"

/-- The record built for a qualifying image: `pg` is the 1-based page number,
`k` the counter value; the payload is the re-encoded JPEG bytes, or the
original bytes when conversion failed (lines 95–100). -/
def mkRecord (pg k : Nat) (img : EmbeddedImage) : ImageRecord :=
  let payload := if img.convertOk then img.jpegBytes else img.origBytes
  { filename := mkFilename pg k
    base64 := b64encodeList payload
    page := pg
    width := img.width
    height := img.height
    format := "jpg"
    mimeType := "image/jpeg"
    colorspace := img.colorspace
    size := payload.length }

/-- The per-image loop body of `extract_images_from_pdf` for the images of
one page (`pg` is the 1-based page number, `c` the incoming value of
`image_counter`). Returns the records emitted for this page and the final
counter. Mirrors lines 43–121: a failed `extract_image` skips the image
(`continue`), as does `width < 50 or height < 50`; otherwise the counter
is incremented and a record emitted. -/
def processPage (pg : Nat) (imgs : List EmbeddedImage) (c : Nat) :
    List ImageRecord × Nat :=
  match imgs with
  | [] => ([], c)
  | img :: rest =>
    if !img.extractOk then processPage pg rest c
    else if img.width < 50 ∨ img.height < 50 then processPage pg rest c
    else
      let out := processPage pg rest (c + 1)
      (mkRecord pg (c + 1) img :: out.1, out.2)

/-- The page loop of `extract_images_from_pdf` (lines 36–121): `pn` is the
0-based page index, `c` the running `image_counter`. -/
def extractPages (pgs : List (List EmbeddedImage)) (pn c : Nat) :
    List ImageRecord × Nat :=
  match pgs with
  | [] => ([], c)
  | pg :: rest =>
    let here := processPage (pn + 1) pg c
    let further := extractPages rest (pn + 1) here.2
    (here.1 ++ further.1, further.2)

/-- `extract_images_from_pdf`: the list returned on line 125 (the document
opens; otherwise the function raises, handled in `main`). -/
def extract_images_from_pdf (doc : PdfDoc) : List ImageRecord :=
  (extractPages doc.pages 0 0).1

/-- Outcome of running `main` of `extract_pdf_images.py`: exit status and
the single JSON object printed to stdout
(`success`/`images`/`count` on success, `success=false` on error). -/
structure ExtractionResult where
  exitCode : Nat
  success : Bool
  images : List ImageRecord
  count : Nat
  deriving Repr, DecidableEq

/-- `main` (lines 130–169): missing path → error JSON, exit 1; the document
failing to open raises inside `extract_images_from_pdf`, caught at
lines 164–169 → error JSON, exit 1; otherwise the success JSON with
`count = len(images)` and exit 0. -/
def extractMain (pathExists : Bool) (doc : PdfDoc) : ExtractionResult :=
  if !pathExists then { exitCode := 1, success := false, images := [], count := 0 }
  else if !doc.opensOk then { exitCode := 1, success := false, images := [], count := 0 }
  else
    let imgs := extract_images_from_pdf doc
    { exitCode := 0, success := true, images := imgs, count := imgs.length }

/-! ### Specification-level description of the extraction output,
used to compare the loop above against the spec's isolation policy -/

/-- An image qualifies when its extraction succeeded and neither dimension
is below 50 — the spec's description of which images produce records. -/
def qualifies (img : EmbeddedImage) : Bool :=
  img.extractOk && decide (50 ≤ img.width) && decide (50 ≤ img.height)

/-- Pair each list element with a counter value, counting up from `k`. -/
def withCounters (k : Nat) : List α → List (Nat × α)
  | [] => []
  | a :: l => (k, a) :: withCounters (k + 1) l

/-- Pair each page's images with the 1-based page number, counting from
`pn + 1`. -/
def pagesWithNumbers (pn : Nat) : List (List EmbeddedImage) → List (Nat × EmbeddedImage)
  | [] => []
  | pg :: rest => pg.map (fun img => (pn + 1, img)) ++ pagesWithNumbers (pn + 1) rest

/-- Spec-level view (from the spec's isolation-policy wording): the
qualifying images of the document, in page and in-page encounter order,
each with its 1-based page number. -/
def qualifyingImages (doc : PdfDoc) : List (Nat × EmbeddedImage) :=
  (pagesWithNumbers 0 doc.pages).filter (fun pi => qualifies pi.2)

/-- Spec-level view of the extraction output: one record per qualifying
image, counters consecutive from 1 across the whole run. -/
def isolationSpecRecords (doc : PdfDoc) : List ImageRecord :=
  (withCounters 1 (qualifyingImages doc)).map (fun kpi => mkRecord kpi.2.1 kpi.1 kpi.2.2)

/-! ### Refinement: the extraction loop equals the spec-level view -/

theorem withCounters_append :
    ∀ (l1 l2 : List α) (k : Nat),
      withCounters k (l1 ++ l2) = withCounters k l1 ++ withCounters (k + l1.length) l2
  | [], l2, k => by simp [withCounters]
  | a :: l1, l2, k => by
    have ih := withCounters_append l1 l2 (k + 1)
    simp only [List.cons_append, withCounters, List.append_eq, List.length_cons]
    rw [ih]
    have h : k + 1 + l1.length = k + (l1.length + 1) := by omega
    rw [h]

theorem withCounters_map (f : α → β) :
    ∀ (l : List α) (k : Nat),
      withCounters k (l.map f) = (withCounters k l).map (fun ka => (ka.1, f ka.2))
  | [], _ => rfl
  | a :: l, k => by simp [withCounters, withCounters_map f l (k + 1)]

theorem withCounters_length : ∀ (l : List α) (k : Nat), (withCounters k l).length = l.length
  | [], _ => rfl
  | a :: l, k => by simp [withCounters, withCounters_length l (k + 1)]

theorem withCounters_fst_ge :
    ∀ (l : List α) (k : Nat) (p : Nat × α), p ∈ withCounters k l → k ≤ p.1
  | [], k, p, h => by simp [withCounters] at h
  | a :: l, k, p, h => by
    rcases (by simpa [withCounters] using h : p = (k, a) ∨ p ∈ withCounters (k + 1) l) with
      rfl | h2
    · exact Nat.le_refl k
    · have := withCounters_fst_ge l (k + 1) p h2; omega

theorem withCounters_pairwise :
    ∀ (l : List α) (k : Nat), (withCounters k l).Pairwise (fun a b => a.1 < b.1)
  | [], k => by simp [withCounters]
  | a :: l, k => by
    simp only [withCounters]
    exact List.pairwise_cons.mpr
      ⟨fun p hp => by have := withCounters_fst_ge l (k + 1) p hp; omega,
       withCounters_pairwise l (k + 1)⟩

theorem snd_mem_of_mem_withCounters :
    ∀ (l : List α) (k : Nat) (p : Nat × α), p ∈ withCounters k l → p.2 ∈ l
  | [], k, p, h => by simp [withCounters] at h
  | a :: l, k, p, h => by
    rcases (by simpa [withCounters] using h : p = (k, a) ∨ p ∈ withCounters (k + 1) l) with
      rfl | h2
    · simp
    · exact List.mem_cons_of_mem a (snd_mem_of_mem_withCounters l (k + 1) p h2)

theorem mem_withCounters_of_mem :
    ∀ (l : List α) (k : Nat) (a : α), a ∈ l → ∃ kv, (kv, a) ∈ withCounters k l
  | [], k, a, h => by simp at h
  | b :: l, k, a, h => by
    rcases List.mem_cons.mp h with rfl | h2
    · exact ⟨k, by simp [withCounters]⟩
    · obtain ⟨kv, hkv⟩ := mem_withCounters_of_mem l (k + 1) a h2
      exact ⟨kv, by simp [withCounters, hkv]⟩

/-- The per-page loop emits exactly one record per qualifying image, with
consecutive counter values starting right after the incoming counter. -/
theorem processPage_eq (pg : Nat) :
    ∀ (imgs : List EmbeddedImage) (c : Nat),
      processPage pg imgs c =
        ((withCounters (c + 1) (imgs.filter qualifies)).map
          (fun ki => mkRecord pg ki.1 ki.2),
         c + (imgs.filter qualifies).length)
  | [], c => by simp [processPage, withCounters]
  | img :: rest, c => by
    by_cases hq : qualifies img = true
    · obtain ⟨⟨hex, hw⟩, hh⟩ : (img.extractOk = true ∧ 50 ≤ img.width) ∧ 50 ≤ img.height := by
        simpa [qualifies] using hq
      have hnot : ¬(img.width < 50 ∨ img.height < 50) := by omega
      simp only [processPage, hex, Bool.not_true, Bool.false_eq_true, if_false,
        if_neg hnot, processPage_eq pg rest (c + 1), List.filter_cons, hq, if_true,
        withCounters, List.map_cons, List.length_cons]
      exact Prod.ext rfl (by omega)
    · have hskip : (!img.extractOk) = true ∨ (img.width < 50 ∨ img.height < 50) := by
        by_cases hex : img.extractOk = true
        · simp [qualifies, hex] at hq
          right; omega
        · left; simp [Bool.not_eq_true] at hex ⊢; exact hex
      have : processPage pg (img :: rest) c = processPage pg rest c := by
        simp only [processPage]
        rcases hskip with h1 | h2
        · rw [if_pos h1]
        · by_cases hb : (!img.extractOk) = true
          · rw [if_pos hb]
          · rw [if_neg hb, if_pos h2]
      rw [this, processPage_eq pg rest c, List.filter_cons, if_neg (by simp [hq])]

/-- One page's worth of `pagesWithNumbers`, filtered, is the filtered page
mapped to (page-number, image) pairs. -/
theorem filter_pageMap (pn : Nat) (l : List EmbeddedImage) :
    (l.map (fun img => (pn, img))).filter (fun pi => qualifies pi.2) =
      (l.filter qualifies).map (fun img => (pn, img)) := by
  induction l with
  | nil => rfl
  | cons a l ih =>
    simp only [List.map_cons, List.filter_cons]
    by_cases hq : qualifies a = true
    · simp [hq, ih]
    · simp [hq, ih]

/-- The page loop equals the spec-level description: records for the
qualifying images of all pages in order, counters consecutive. -/
theorem extractPages_eq :
    ∀ (pgs : List (List EmbeddedImage)) (pn c : Nat),
      extractPages pgs pn c =
        ((withCounters (c + 1)
            ((pagesWithNumbers pn pgs).filter (fun pi => qualifies pi.2))).map
          (fun kpi => mkRecord kpi.2.1 kpi.1 kpi.2.2),
         c + ((pagesWithNumbers pn pgs).filter (fun pi => qualifies pi.2)).length)
  | [], pn, c => by simp [extractPages, pagesWithNumbers, withCounters]
  | pg :: rest, pn, c => by
    simp only [extractPages, pagesWithNumbers, processPage_eq (pn + 1) pg c,
      extractPages_eq rest (pn + 1) (c + (pg.filter qualifies).length),
      List.filter_append, filter_pageMap, withCounters_append, List.map_append,
      List.length_append, List.length_map]
    refine Prod.ext ?_ (by simp; omega)
    simp only [withCounters_map, List.map_map, List.length_map]
    have h : c + (pg.filter qualifies).length + 1 =
        c + 1 + (pg.filter qualifies).length := by omega
    rw [h]
    rfl

/-- `extract_images_from_pdf` produces exactly the spec-level record list. -/
theorem extract_eq_spec (doc : PdfDoc) :
    extract_images_from_pdf doc = isolationSpecRecords doc := by
  simp only [extract_images_from_pdf, extractPages_eq, isolationSpecRecords,
    qualifyingImages]

theorem mem_pagesWithNumbers :
    ∀ (pgs : List (List EmbeddedImage)) (pn : Nat) (p : Nat × EmbeddedImage),
      p ∈ pagesWithNumbers pn pgs → ∃ pg ∈ pgs, p.2 ∈ pg
  | [], pn, p, h => by simp [pagesWithNumbers] at h
  | pg :: rest, pn, p, h => by
    simp only [pagesWithNumbers] at h
    rcases List.mem_append.mp h with h1 | h2
    · obtain ⟨img, himg, rfl⟩ := List.mem_map.mp h1
      exact ⟨pg, by simp, by simpa using himg⟩
    · obtain ⟨pg2, hpg2, hp⟩ := mem_pagesWithNumbers rest (pn + 1) p h2
      exact ⟨pg2, by simp [hpg2], hp⟩

/-! ## Grayscale conversion (`scripts/convert_with_ghostscript.py`) -/

/-- The outcomes of the effectful steps `convert_pdf_to_grayscale` branches
on, in the order the code consults them:
`inputExists` — `os.path.exists(input_pdf)` (line 125);
`gsFound` — `check_ghostscript()` returns a command (line 134);
`gsTimesOut` — the rasterizer run exceeds its 300 s timeout
(`subprocess.TimeoutExpired`, line 427);
`gsExitCode` — the rasterizer's exit status (line 185);
`pageImages` — the sorted PNG page images found in the temp directory
(lines 194–198);
`stepException` — an unexpected exception in steps 2–5 reaching the
generic handler (line 436);
`sideSaveFailAt` — `some k` when the best-effort save loop (lines 324–346)
raises after `k` images were written, `none` when it completes. -/
structure ConvWorld where
  inputExists : Bool
  gsFound : Bool
  gsTimesOut : Bool
  gsExitCode : Nat
  pageImages : List GrayImage
  stepException : Bool
  sideSaveFailAt : Option Nat
  deriving Repr, DecidableEq

/-- One page of the output PDF after step 4 (lines 290–312): the mediabox
set by `page.set_mediabox(fitz.Rect(0, 0, page_width, page_height))` and
the image inserted by `page.insert_image(page.rect, ...)`. -/
structure OutPage where
  widthPts : ℚ
  heightPts : ℚ
  imageData : GrayImage
  imageRect : ℚ × ℚ × ℚ × ℚ
  deriving Repr, DecidableEq

/-- Observable outcome of one `convert_pdf_to_grayscale` run. -/
structure ConvResult where
  exitCode : Nat
  tempDirCreated : Bool
  tempDirRemoved : Bool
  rasterizerInvoked : Bool
  outputSaved : Bool
  outputPages : List OutPage
  sideImages : List GrayImage
  deriving Repr, DecidableEq

/-- Step 4 geometry for one processed image (lines 299–310):
`page_width = (width / dpi) * 72`, `page_height = (height / dpi) * 72`,
mediabox `Rect(0, 0, page_width, page_height)`, image inserted over
`page.rect`, i.e. the whole canvas. -/
def buildPage (dpi : Nat) (img : GrayImage) : OutPage :=
  let w : ℚ := (img.width : ℚ) / (dpi : ℚ) * 72
  let h : ℚ := (img.height : ℚ) / (dpi : ℚ) * 72
  { widthPts := w, heightPts := h, imageData := img, imageRect := (0, 0, w, h) }

/-- The success path of `convert_pdf_to_grayscale` (steps 2–5, lines
212–425): every page image gets the background substitution, one output
page per image in order, side images saved until `sideSaveFailAt` (the
failure is downgraded to a warning), temp directory removed (lines
417–423), return 0. -/
def convSuccess (w : ConvWorld) (dpi : Nat) : ConvResult :=
  let gray := w.pageImages.map substituteBackground
  { exitCode := 0
    tempDirCreated := true
    tempDirRemoved := true
    rasterizerInvoked := true
    outputSaved := true
    outputPages := gray.map (buildPage dpi)
    sideImages :=
      match w.sideSaveFailAt with
      | none => gray
      | some k => gray.take k }

/-- `convert_pdf_to_grayscale` (lines 98–446). The branch order follows the
code: missing input (line 125) and missing Ghostscript (line 134) return 1
before `tempfile.mkdtemp()` (line 144); a rasterizer timeout is caught at
line 427 and cleans up; a non-zero rasterizer exit returns 1 at line 191
with no cleanup; zero produced page images returns 1 at line 203 with no
cleanup; an unexpected exception is caught at line 436 and cleans up;
otherwise the success path. -/
def convert_pdf_to_grayscale (w : ConvWorld) (dpi : Nat) : ConvResult :=
  if !w.inputExists then
    { exitCode := 1, tempDirCreated := false, tempDirRemoved := false,
      rasterizerInvoked := false, outputSaved := false, outputPages := [], sideImages := [] }
  else if !w.gsFound then
    { exitCode := 1, tempDirCreated := false, tempDirRemoved := false,
      rasterizerInvoked := false, outputSaved := false, outputPages := [], sideImages := [] }
  else if w.gsTimesOut then
    { exitCode := 1, tempDirCreated := true, tempDirRemoved := true,
      rasterizerInvoked := true, outputSaved := false, outputPages := [], sideImages := [] }
  else if w.gsExitCode ≠ 0 then
    { exitCode := 1, tempDirCreated := true, tempDirRemoved := false,
      rasterizerInvoked := true, outputSaved := false, outputPages := [], sideImages := [] }
  else if w.pageImages.isEmpty then
    { exitCode := 1, tempDirCreated := true, tempDirRemoved := false,
      rasterizerInvoked := true, outputSaved := false, outputPages := [], sideImages := [] }
  else if w.stepException then
    { exitCode := 1, tempDirCreated := true, tempDirRemoved := true,
      rasterizerInvoked := true, outputSaved := false, outputPages := [], sideImages := [] }
  else convSuccess w dpi

/-- Outcome of the `__main__` block of `convert_with_ghostscript.py`. -/
structure ConvMainResult where
  exitCode : Nat
  dpiAborted : Bool
  rasterizerInvoked : Bool
  deriving Repr, DecidableEq

/-- `__main__` (lines 448–484): DPI validated first (lines 468–470,
`sys.exit(1)` when `dpi < 72 or dpi > 2400`), then the Ghostscript check
(lines 473–480), then the conversion. -/
def convMain (dpi : Int) (w : ConvWorld) : ConvMainResult :=
  if dpi < 72 ∨ 2400 < dpi then
    { exitCode := 1, dpiAborted := true, rasterizerInvoked := false }
  else if !w.gsFound then
    { exitCode := 1, dpiAborted := false, rasterizerInvoked := false }
  else
    let r := convert_pdf_to_grayscale w dpi.toNat
    { exitCode := r.exitCode, dpiAborted := false, rasterizerInvoked := r.rasterizerInvoked }

/-- On success, `convert_pdf_to_grayscale` takes exactly the success path. -/
theorem convert_eq_success (w : ConvWorld) (dpi : Nat)
    (h : (convert_pdf_to_grayscale w dpi).exitCode = 0) :
    convert_pdf_to_grayscale w dpi = convSuccess w dpi := by
  simp only [convert_pdf_to_grayscale] at h ⊢
  split_ifs at h ⊢
  rfl

/-! ## Concrete sample inputs used to witness the theorems -/

/-- A small concrete page image: one near-white pixel, one dark pixel. -/
def sampleImage : GrayImage := { width := 2, height := 1, data := [250, 100] }

/-- A run in which every effectful step succeeds. -/
def okWorld : ConvWorld :=
  { inputExists := true, gsFound := true, gsTimesOut := false, gsExitCode := 0,
    pageImages := [sampleImage], stepException := false, sideSaveFailAt := none }

/-- A run in which the rasterizer exits with status 1. -/
def leakWorld : ConvWorld :=
  { inputExists := true, gsFound := true, gsTimesOut := false, gsExitCode := 1,
    pageImages := [], stepException := false, sideSaveFailAt := none }

/-- A successful run in which the best-effort side-image save fails before
any image is written. -/
def sideFailWorld : ConvWorld :=
  { inputExists := true, gsFound := true, gsTimesOut := false, gsExitCode := 0,
    pageImages := [sampleImage], stepException := false, sideSaveFailAt := some 0 }

/-- An embedded image that extracts and converts cleanly. -/
def sampleGoodImage : EmbeddedImage :=
  { width := 60, height := 60, colorspace := "DeviceRGB", extractOk := true,
    convertOk := true, origBytes := [1, 2, 3], jpegBytes := [7, 8] }

/-- An embedded image whose `extract_image` call fails. -/
def sampleBadImage : EmbeddedImage :=
  { width := 80, height := 80, colorspace := "DeviceRGB", extractOk := false,
    convertOk := true, origBytes := [4, 5], jpegBytes := [6] }

/-- An embedded image below the minimum-size threshold. -/
def sampleSmallImage : EmbeddedImage :=
  { width := 10, height := 300, colorspace := "DeviceGray", extractOk := true,
    convertOk := true, origBytes := [13], jpegBytes := [14] }

/-- A qualifying embedded image whose JPEG re-encode fails. -/
def sampleFallbackImage : EmbeddedImage :=
  { width := 70, height := 55, colorspace := "DeviceCMYK", extractOk := true,
    convertOk := false, origBytes := [9, 10, 11, 12], jpegBytes := [] }

/-- A two-page document exercising all per-image outcomes. -/
def sampleDoc : PdfDoc :=
  { opensOk := true,
    pages := [[sampleBadImage, sampleGoodImage], [sampleFallbackImage, sampleSmallImage]] }

/-! ## Claim theorems -/

/-- C1: for every 8-bit single-channel page image, background substitution
maps every pixel with intensity ≥ 240 to exactly 217 and leaves pixels
below 240 unchanged; the image dimensions are unchanged. -/
theorem background_substitution_pixelwise (img : GrayImage) :
    (substituteBackground img).width = img.width ∧
    (substituteBackground img).height = img.height ∧
    (substituteBackground img).data.length = img.data.length ∧
    ∀ i (h1 : i < img.data.length) (h2 : i < (substituteBackground img).data.length),
      (substituteBackground img).data.get ⟨i, h2⟩ =
        if 240 ≤ img.data.get ⟨i, h1⟩ then 217 else img.data.get ⟨i, h1⟩ := by
  refine ⟨rfl, rfl, by simp [substituteBackground], ?_⟩
  intro i h1 h2
  simp [substituteBackground, List.get_eq_getElem]

theorem background_substitution_pixelwise_witness :
    (substituteBackground sampleImage).data.get ⟨0, by decide⟩ =
      if 240 ≤ sampleImage.data.get ⟨0, by decide⟩ then 217
      else sampleImage.data.get ⟨0, by decide⟩ :=
  (background_substitution_pixelwise sampleImage).2.2.2 0 (by decide) (by decide)

/-- C2: the code violates the claim — when the rasterizer exits non-zero
after the temp directory was created, `convert_pdf_to_grayscale` returns 1
from inside the `try` block (line 191) without running any cleanup, so the
transient working directory is not removed on that exit path. -/
theorem tempdir_leaked_on_rasterizer_failure :
    (convert_pdf_to_grayscale leakWorld 300).exitCode = 1 ∧
    (convert_pdf_to_grayscale leakWorld 300).tempDirCreated = true ∧
    (convert_pdf_to_grayscale leakWorld 300).tempDirRemoved = false := by
  decide

/-- C3 counterexample: a run that succeeds (exit 0) with one rasterized
page image, yet whose side-image directory receives zero image files
because the best-effort save loop failed (exception caught at line 345). -/
theorem side_image_count_counterexample :
    (convert_pdf_to_grayscale sideFailWorld 300).exitCode = 0 ∧
    sideFailWorld.pageImages.length = 1 ∧
    ¬(convert_pdf_to_grayscale sideFailWorld 300).sideImages.length = 1 := by
  decide

/-- C3 (amended): for every successful conversion run with N rasterized
page images, the output document has exactly N pages, page i carrying the
background-substituted image i in order; and the side-image directory
receives exactly N image files provided the best-effort save step did not
fail. -/
theorem pages_match_images (w : ConvWorld) (dpi : Nat)
    (h : (convert_pdf_to_grayscale w dpi).exitCode = 0) :
    (convert_pdf_to_grayscale w dpi).outputPages.length = w.pageImages.length ∧
    (∀ i (h1 : i < (convert_pdf_to_grayscale w dpi).outputPages.length)
        (h2 : i < w.pageImages.length),
      ((convert_pdf_to_grayscale w dpi).outputPages.get ⟨i, h1⟩).imageData =
        substituteBackground (w.pageImages.get ⟨i, h2⟩)) ∧
    (w.sideSaveFailAt = none →
      (convert_pdf_to_grayscale w dpi).sideImages.length = w.pageImages.length) := by
  rw [convert_eq_success w dpi h]
  refine ⟨by simp [convSuccess], ?_, ?_⟩
  · intro i h1 h2
    simp [convSuccess, buildPage, List.get_eq_getElem]
  · intro hnone
    simp [convSuccess, hnone]

theorem pages_match_images_witness :
    (convert_pdf_to_grayscale okWorld 300).outputPages.length = 1 ∧
    (convert_pdf_to_grayscale okWorld 300).sideImages.length = 1 := by
  have h := pages_match_images okWorld 300 (by decide)
  exact ⟨h.1, h.2.2 rfl⟩

/-- C5: for every DPI outside [72, 2400] the conversion command exits 1
with the rasterizer never invoked; for every DPI inside the range the DPI
validation does not abort the run. -/
theorem dpi_validation (dpi : Int) (w : ConvWorld) :
    (dpi < 72 ∨ 2400 < dpi →
      (convMain dpi w).exitCode = 1 ∧ (convMain dpi w).rasterizerInvoked = false ∧
      (convMain dpi w).dpiAborted = true) ∧
    (72 ≤ dpi → dpi ≤ 2400 → (convMain dpi w).dpiAborted = false) := by
  constructor
  · intro h
    simp [convMain, if_pos h]
  · intro h1 h2
    have hno : ¬(dpi < 72 ∨ 2400 < dpi) := by omega
    simp only [convMain, if_neg hno]
    split
    · rfl
    · rfl

theorem dpi_validation_witness :
    ((convMain 3000 okWorld).exitCode = 1 ∧ (convMain 3000 okWorld).rasterizerInvoked = false ∧
      (convMain 3000 okWorld).dpiAborted = true) ∧
    (convMain 300 okWorld).dpiAborted = false :=
  ⟨(dpi_validation 3000 okWorld).1 (by decide),
   (dpi_validation 300 okWorld).2 (by decide) (by decide)⟩

/-- C9: on every successful run, output page i has its canvas set to
(width / dpi) * 72 by (height / dpi) * 72 points for the pixel size of
processed image i, the image is placed over the whole canvas, and pages
follow the source image order. -/
theorem page_geometry (w : ConvWorld) (dpi : Nat)
    (h : (convert_pdf_to_grayscale w dpi).exitCode = 0) :
    ∀ i (h1 : i < (convert_pdf_to_grayscale w dpi).outputPages.length)
      (h2 : i < w.pageImages.length),
      ((convert_pdf_to_grayscale w dpi).outputPages.get ⟨i, h1⟩).widthPts =
        ((substituteBackground (w.pageImages.get ⟨i, h2⟩)).width : ℚ) / (dpi : ℚ) * 72 ∧
      ((convert_pdf_to_grayscale w dpi).outputPages.get ⟨i, h1⟩).heightPts =
        ((substituteBackground (w.pageImages.get ⟨i, h2⟩)).height : ℚ) / (dpi : ℚ) * 72 ∧
      ((convert_pdf_to_grayscale w dpi).outputPages.get ⟨i, h1⟩).imageRect =
        (0, 0, ((convert_pdf_to_grayscale w dpi).outputPages.get ⟨i, h1⟩).widthPts,
          ((convert_pdf_to_grayscale w dpi).outputPages.get ⟨i, h1⟩).heightPts) ∧
      ((convert_pdf_to_grayscale w dpi).outputPages.get ⟨i, h1⟩).imageData =
        substituteBackground (w.pageImages.get ⟨i, h2⟩) := by
  rw [convert_eq_success w dpi h]
  intro i h1 h2
  simp [convSuccess, buildPage, List.get_eq_getElem]

theorem page_geometry_witness :
    ((convert_pdf_to_grayscale okWorld 300).outputPages.get ⟨0, by decide⟩).widthPts =
      ((substituteBackground (okWorld.pageImages.get ⟨0, by decide⟩)).width : ℚ) /
        ((300 : Nat) : ℚ) * 72 ∧
    ((convert_pdf_to_grayscale okWorld 300).outputPages.get ⟨0, by decide⟩).heightPts =
      ((substituteBackground (okWorld.pageImages.get ⟨0, by decide⟩)).height : ℚ) /
        ((300 : Nat) : ℚ) * 72 ∧
    ((convert_pdf_to_grayscale okWorld 300).outputPages.get ⟨0, by decide⟩).imageRect =
      (0, 0, ((convert_pdf_to_grayscale okWorld 300).outputPages.get ⟨0, by decide⟩).widthPts,
        ((convert_pdf_to_grayscale okWorld 300).outputPages.get ⟨0, by decide⟩).heightPts) ∧
    ((convert_pdf_to_grayscale okWorld 300).outputPages.get ⟨0, by decide⟩).imageData =
      substituteBackground (okWorld.pageImages.get ⟨0, by decide⟩) :=
  page_geometry okWorld 300 (by decide) 0 (by decide) (by decide)

/-- Every record produced by the extraction loop is `mkRecord` of some
qualifying embedded image of the document. -/
theorem mem_extract_images (doc : PdfDoc) (rc : ImageRecord)
    (h : rc ∈ extract_images_from_pdf doc) :
    ∃ k pg img, qualifies img = true ∧ (∃ page ∈ doc.pages, img ∈ page) ∧
      rc = mkRecord pg k img := by
  rw [extract_eq_spec] at h
  obtain ⟨kpi, hmem, rfl⟩ := List.mem_map.mp h
  have h2 := snd_mem_of_mem_withCounters _ _ _ hmem
  have h3 := List.mem_filter.mp h2
  exact ⟨kpi.1, kpi.2.1, kpi.2.2, h3.2, mem_pagesWithNumbers _ _ _ h3.1, rfl⟩

/-- C4: no record is emitted for an embedded image either of whose decoded
dimensions is below 50 (every emitted record carries dimensions ≥ 50), and
the reported count equals the number of records actually emitted. -/
theorem small_images_excluded (pe : Bool) (doc : PdfDoc) :
    (∀ rc ∈ (extractMain pe doc).images, 50 ≤ rc.width ∧ 50 ≤ rc.height) ∧
    (extractMain pe doc).count = (extractMain pe doc).images.length := by
  constructor
  · intro rc hrc
    cases pe with
    | false => simp [extractMain] at hrc
    | true =>
      cases hop : doc.opensOk with
      | false => simp [extractMain, hop] at hrc
      | true =>
        have hrc2 : rc ∈ extract_images_from_pdf doc := by
          simpa [extractMain, hop] using hrc
        obtain ⟨k, pg, img, hq, _, rfl⟩ := mem_extract_images doc rc hrc2
        obtain ⟨⟨_, hw⟩, hh⟩ : (img.extractOk = true ∧ 50 ≤ img.width) ∧ 50 ≤ img.height := by
          simpa [qualifies] using hq
        exact ⟨by simpa [mkRecord] using hw, by simpa [mkRecord] using hh⟩
  · cases pe with
    | false => simp [extractMain]
    | true =>
      cases hop : doc.opensOk with
      | false => simp [extractMain, hop]
      | true => simp [extractMain, hop]

theorem small_images_excluded_witness :
    (50 ≤ (mkRecord 1 1 sampleGoodImage).width ∧ 50 ≤ (mkRecord 1 1 sampleGoodImage).height) ∧
    (extractMain true sampleDoc).count = (extractMain true sampleDoc).images.length :=
  ⟨(small_images_excluded true sampleDoc).1 (mkRecord 1 1 sampleGoodImage) (by decide),
   (small_images_excluded true sampleDoc).2⟩

/-- All byte payloads of a document are 8-bit values, as Python `bytes`
objects guarantee. -/
def bytesWF (doc : PdfDoc) : Prop :=
  ∀ page ∈ doc.pages, ∀ img ∈ page,
    (∀ b ∈ img.origBytes, b < 256) ∧ (∀ b ∈ img.jpegBytes, b < 256)

/-- C6: for every emitted record, decoding the base64 field yields a byte
sequence whose length equals the declared size field, in the re-encoded
case and the original-bytes fallback case alike. -/
theorem base64_size_roundtrip (doc : PdfDoc) (hwf : bytesWF doc) :
    ∀ rc ∈ extract_images_from_pdf doc, (b64decodeList rc.base64).length = rc.size := by
  intro rc hrc
  obtain ⟨k, pg, img, _, ⟨page, hpage, himg⟩, rfl⟩ := mem_extract_images doc rc hrc
  obtain ⟨ho, hj⟩ := hwf page hpage img himg
  by_cases hc : img.convertOk = true
  · simp [mkRecord, hc, b64decode_b64encode img.jpegBytes hj]
  · simp [mkRecord, hc, b64decode_b64encode img.origBytes ho]

theorem base64_size_roundtrip_witness :
    (b64decodeList (mkRecord 1 1 sampleGoodImage).base64).length =
      (mkRecord 1 1 sampleGoodImage).size :=
  base64_size_roundtrip sampleDoc (by unfold bytesWF; decide) (mkRecord 1 1 sampleGoodImage)
    (by decide)

/-- C7: for every document that opens, each per-image failure skips only
that image — the output is exactly the records of the qualifying images
that extracted successfully, in order — and `main` still prints one
success JSON object (`success = true`, `count = len(images)`) and exits 0. -/
theorem per_image_isolation (doc : PdfDoc) (hop : doc.opensOk = true) :
    (extractMain true doc).exitCode = 0 ∧
    (extractMain true doc).success = true ∧
    (extractMain true doc).images = isolationSpecRecords doc ∧
    (extractMain true doc).count = (isolationSpecRecords doc).length := by
  simp [extractMain, hop, extract_eq_spec]

theorem per_image_isolation_witness :
    (extractMain true sampleDoc).exitCode = 0 ∧
    (extractMain true sampleDoc).success = true ∧
    (extractMain true sampleDoc).images = isolationSpecRecords sampleDoc ∧
    (extractMain true sampleDoc).count = (isolationSpecRecords sampleDoc).length :=
  per_image_isolation sampleDoc rfl

/-- C8: every qualifying image whose JPEG re-encode fails still yields a
record, whose base64 payload and size are computed from the image's
original undecoded bytes. -/
theorem fallback_uses_original_bytes (doc : PdfDoc) (pg : Nat) (img : EmbeddedImage)
    (hmem : (pg, img) ∈ qualifyingImages doc) (hconv : img.convertOk = false) :
    ∃ rc ∈ extract_images_from_pdf doc,
      rc.base64 = b64encodeList img.origBytes ∧ rc.size = img.origBytes.length ∧
      rc.page = pg ∧ rc.width = img.width ∧ rc.height = img.height := by
  rw [extract_eq_spec]
  obtain ⟨kv, hkv⟩ := mem_withCounters_of_mem _ 1 (pg, img) hmem
  refine ⟨mkRecord pg kv img, ?_, ?_⟩
  · exact List.mem_map_of_mem _ hkv
  · simp [mkRecord, hconv]

theorem fallback_uses_original_bytes_witness :
    ∃ rc ∈ extract_images_from_pdf sampleDoc,
      rc.base64 = b64encodeList sampleFallbackImage.origBytes ∧
      rc.size = sampleFallbackImage.origBytes.length ∧
      rc.page = 2 ∧ rc.width = sampleFallbackImage.width ∧
      rc.height = sampleFallbackImage.height :=
  fallback_uses_original_bytes sampleDoc 2 sampleFallbackImage (by decide) rfl

/-- Two generated filenames agree only when page number and counter value
both agree: the underscore between the two decimal fields and the dot
before the extension never occur inside a decimal field. -/
theorem mkFilename_inj (p1 k1 p2 k2 : Nat) (h : mkFilename p1 k1 = mkFilename p2 k2) :
    p1 = p2 ∧ k1 = k2 := by
  have hd := congrArg String.data h
  simp only [mkFilename, natRepr, String.data_append] at hd
  simp only [List.append_assoc, List.cons_append, List.nil_append, List.cons.injEq,
    true_and] at hd
  have h1 := append_sep_inj (natDigits p1) (natDigits p2)
    (natDigits k1 ++ '.' :: 'j' :: 'p' :: 'g' :: [])
    (natDigits k2 ++ '.' :: 'j' :: 'p' :: 'g' :: [])
    (natDigits_no_underscore p1) (natDigits_no_underscore p2) hd
  have h2 := append_sep_inj (natDigits k1) (natDigits k2)
    ('j' :: 'p' :: 'g' :: []) ('j' :: 'p' :: 'g' :: [])
    (natDigits_no_dot k1) (natDigits_no_dot k2) h1.2
  exact ⟨natDigits_inj p1 p2 h1.1, natDigits_inj k1 k2 h2.1⟩

/-- C10: every emitted record uses the fixed `jpg` naming — filename ends
in `.jpg`, `format = "jpg"`, `mimeType = "image/jpeg"`, including fallback
records whose payload kept the original embedded format — and, because the
counter only advances for qualifying images and every record embeds the
freshly incremented counter, all filenames of one run are distinct. -/
theorem record_naming (doc : PdfDoc) :
    (∀ rc ∈ extract_images_from_pdf doc,
      rc.format = "jpg" ∧ rc.mimeType = "image/jpeg" ∧
      ∃ s, rc.filename = s ++ ".jpg") ∧
    ((extract_images_from_pdf doc).map (fun rc => rc.filename)).Nodup := by
  constructor
  · intro rc hrc
    obtain ⟨k, pg, img, _, _, rfl⟩ := mem_extract_images doc rc hrc
    refine ⟨rfl, rfl, "image_p" ++ natRepr pg ++ "_" ++ natRepr k, ?_⟩
    simp [mkRecord, mkFilename, String.append_assoc]
  · have hmapped :
        ((withCounters 1 (qualifyingImages doc)).map
          (fun kpi => (mkRecord kpi.2.1 kpi.1 kpi.2.2).filename)).Pairwise (· ≠ ·) := by
      refine List.Pairwise.map _ ?_ (withCounters_pairwise (qualifyingImages doc) 1)
      intro a b hab heq
      have hk := (mkFilename_inj a.2.1 a.1 b.2.1 b.1 (by simpa [mkRecord] using heq)).2
      omega
    rw [extract_eq_spec]
    simpa [isolationSpecRecords, List.map_map, Function.comp] using hmapped

theorem record_naming_witness :
    ((mkRecord 1 1 sampleGoodImage).format = "jpg" ∧
      (mkRecord 1 1 sampleGoodImage).mimeType = "image/jpeg" ∧
      ∃ s, (mkRecord 1 1 sampleGoodImage).filename = s ++ ".jpg") ∧
    ((extract_images_from_pdf sampleDoc).map (fun rc => rc.filename)).Nodup :=
  ⟨(record_naming sampleDoc).1 (mkRecord 1 1 sampleGoodImage) (by decide),
   (record_naming sampleDoc).2⟩

end PdfCreateExpress
